import Mathlib

/-!
A verification development for `src/webDAV_downloader.py` (class `WebDAVDownloader`).

The Python methods are shallowly embedded as executable functions:

* `download_file` (source lines 129-180): the network and filesystem effects of
  one file transfer.  The streaming GET is modelled by a `DownloadEnv` record
  giving the outcome of the request (`getResult`), whether the `mkdir`, the
  `open` of the temporary file and the body stream succeed, and how many body
  bytes the stream delivers before it ends or breaks.  The local filesystem is
  a finite map from path strings to file sizes (`FS`), and the filesystem
  operations performed are also recorded as an ordered event list (`FsEvent`).
* `list_directory` (lines 97-117) over a `ListEnv` giving the PROPFIND outcome.
* `filter_string` (lines 119-127): the call
  `re.search("/" + re.escape(base) + ".*", input)` is embedded as a literal
  first-occurrence search (the pattern is fully escaped, hence literal) whose
  match extends from the occurrence of `"/" + base` up to, but not including,
  the next newline character, since `.` does not match a newline.
* `download_folder` (lines 182-232): one directory invocation, with the
  outcomes of the directory listing, of the recursive sub-directory calls and
  of the individual file downloads supplied by a `FolderEnv` record.
* the credential validation of `WebDAVDownloader.__init__` (lines 36-41).
-/

/-! ## Local filesystem model: a finite map from path strings to file sizes -/

def lookupSize : List (String × Nat) → String → Option Nat
  | [], _ => none
  | (q, n) :: rest, p => if q = p then some n else lookupSize rest p

def removeEntry : List (String × Nat) → String → List (String × Nat)
  | [], _ => []
  | (q, n) :: rest, p =>
    if q = p then removeEntry rest p else (q, n) :: removeEntry rest p

structure FS where
  files : List (String × Nat)
deriving DecidableEq

/-- Size of the regular file at `p`, or `none` when no file exists there. -/
def FS.get (fs : FS) (p : String) : Option Nat := lookupSize fs.files p

/-- Effect of `os.remove(p)`. -/
def FS.remove (fs : FS) (p : String) : FS := ⟨removeEntry fs.files p⟩

/-- Effect of writing a file of size `n` at `p` (create or overwrite). -/
def FS.set (fs : FS) (p : String) (n : Nat) : FS := ⟨(p, n) :: removeEntry fs.files p⟩

theorem lookupSize_removeEntry_self (l : List (String × Nat)) (p : String) :
    lookupSize (removeEntry l p) p = none := by
  induction l with
  | nil => simp [removeEntry, lookupSize]
  | cons hd tl ih =>
    obtain ⟨q, n⟩ := hd
    by_cases hq : q = p
    · simp [removeEntry, hq, ih]
    · simp [removeEntry, lookupSize, hq, ih]

theorem FS.get_remove_self (fs : FS) (p : String) : (fs.remove p).get p = none :=
  lookupSize_removeEntry_self fs.files p

theorem FS.get_set_self (fs : FS) (p : String) (n : Nat) :
    (fs.set p n).get p = some n := by
  simp [FS.set, FS.get, lookupSize]

/-! ## `download_file` (source lines 129-180) -/

/-- The HTTP response to the streaming GET, as far as `download_file` reads it:
its status code and its parsed `content-length` header (`none` when absent). -/
structure GetResponse where
  status : Nat
  contentLength : Option Nat
deriving DecidableEq

/-- Outcome of the external effects one `download_file` call can perform:
the GET either raises (`Except.error`) or yields a response; the `mkdir`,
the open of the temporary file and the body stream each either succeed or
raise; `delivered` is the number of body bytes the stream hands over before
it either ends normally (`streamOk = true`) or raises mid-stream. -/
structure DownloadEnv where
  getResult : Except Unit GetResponse
  mkdirOk : Bool
  openOk : Bool
  streamOk : Bool
  delivered : Nat

/-- Filesystem operations `download_file` can perform, in program order. -/
inductive FsEvent where
  | mkdirParentsOf (localPath : String)
  | openWrite (path : String)
  | writeChunk (path : String) (totalBytes : Nat)
  | rename (src dst : String)
  | removeFile (path : String)
deriving DecidableEq

/-- Result of one `download_file` call: the returned boolean, the final
filesystem, the ordered effect trace and the number of body bytes read. -/
structure DLResult where
  ok : Bool
  fs : FS
  events : List FsEvent
  bytes : Nat
deriving DecidableEq

/-- Line 131: `temp_path = local_path + f".{self.job_id}.temp"`. -/
def tempPath (jobId localPath : String) : String :=
  localPath ++ "." ++ jobId ++ ".temp"

/-- `response.raise_for_status()` raises exactly for status codes 400-599. -/
def httpError (st : Nat) : Bool := decide (400 ≤ st ∧ st < 600)

/-- Line 142: `file_size = int(response.headers.get("content-length", 0))`. -/
def expectedSize (resp : GetResponse) : Nat := resp.contentLength.getD 0

/-- Lines 176-180: the `except` handler removes the temporary file when it
exists and returns `False`. -/
def failCleanup (fs : FS) (tp : String) (evs : List FsEvent) (b : Nat) : DLResult :=
  if (fs.get tp).isSome then
    { ok := false, fs := fs.remove tp, events := evs ++ [FsEvent.removeFile tp], bytes := b }
  else
    { ok := false, fs := fs, events := evs, bytes := b }

/-- Lines 142-174: the body of the `try` block after a GET that did not raise
and passed `raise_for_status`.  The parent `mkdir` (line 146) precedes the
skip check (line 148); the body is streamed to the temporary path
(lines 154-167; the per-chunk loop is recorded as one aggregate write of all
delivered bytes, and the progress logging on lines 161-167 has no
model-visible effect); line 169 compares the temporary file size with
`file_size` and line 172 renames the temporary file onto the final path. -/
def downloadBody (env : DownloadEnv) (resp : GetResponse) (jobId lp : String) (fs : FS) :
    DLResult :=
  if env.mkdirOk = false then failCleanup fs (tempPath jobId lp) [] 0
  else if fs.get lp = some (expectedSize resp) then
    { ok := true, fs := fs, events := [FsEvent.mkdirParentsOf lp], bytes := 0 }
  else if env.openOk = false then
    failCleanup fs (tempPath jobId lp) [FsEvent.mkdirParentsOf lp] 0
  else if env.streamOk = false then
    failCleanup ((fs.set (tempPath jobId lp) 0).set (tempPath jobId lp) env.delivered)
      (tempPath jobId lp)
      [FsEvent.mkdirParentsOf lp, FsEvent.openWrite (tempPath jobId lp),
        FsEvent.writeChunk (tempPath jobId lp) env.delivered]
      env.delivered
  else if env.delivered ≠ expectedSize resp then
    failCleanup ((fs.set (tempPath jobId lp) 0).set (tempPath jobId lp) env.delivered)
      (tempPath jobId lp)
      [FsEvent.mkdirParentsOf lp, FsEvent.openWrite (tempPath jobId lp),
        FsEvent.writeChunk (tempPath jobId lp) env.delivered]
      env.delivered
  else
    { ok := true
      fs := ((((fs.set (tempPath jobId lp) 0).set (tempPath jobId lp)
        env.delivered).remove (tempPath jobId lp)).set lp env.delivered)
      events := [FsEvent.mkdirParentsOf lp, FsEvent.openWrite (tempPath jobId lp),
        FsEvent.writeChunk (tempPath jobId lp) env.delivered,
        FsEvent.rename (tempPath jobId lp) lp]
      bytes := env.delivered }

/-- `download_file(remote_path, local_path)` (lines 129-180).  A raising GET
or a 4xx/5xx status diverts to the `except` handler before any filesystem
effect; otherwise execution continues in `downloadBody`. -/
def download_file (env : DownloadEnv) (jobId lp : String) (fs : FS) : DLResult :=
  match env.getResult with
  | Except.error _ => failCleanup fs (tempPath jobId lp) [] 0
  | Except.ok resp =>
    if httpError resp.status then failCleanup fs (tempPath jobId lp) [] 0
    else downloadBody env resp jobId lp fs

theorem failCleanup_ok (fs : FS) (tp : String) (evs : List FsEvent) (b : Nat) :
    (failCleanup fs tp evs b).ok = false := by
  unfold failCleanup
  split <;> rfl

theorem failCleanup_temp (fs : FS) (tp : String) (evs : List FsEvent) (b : Nat) :
    (failCleanup fs tp evs b).fs.get tp = none := by
  unfold failCleanup
  split
  · exact FS.get_remove_self fs tp
  · next h => exact Option.not_isSome_iff_eq_none.mp h

/-- C2: `download_file` is a total boolean-valued operation — modelled as a
total function into `DLResult`, it returns an outcome for every environment —
and whenever it returns the failure outcome `False`, no file remains at the
temporary path: every failure path runs the `except` handler, which removes
the temporary file when present. -/
theorem download_file_failure_cleanup (env : DownloadEnv) (jobId lp : String) (fs : FS)
    (h : (download_file env jobId lp fs).ok = false) :
    (download_file env jobId lp fs).fs.get (tempPath jobId lp) = none := by
  unfold download_file at *
  cases hres : env.getResult with
  | error e => simp only [hres] at h ⊢; exact failCleanup_temp ..
  | ok resp =>
    simp only [hres] at h ⊢
    by_cases hst : httpError resp.status
    · simp only [hst, if_true] at h ⊢; exact failCleanup_temp ..
    · simp only [hst, if_false] at h ⊢
      unfold downloadBody at h ⊢
      by_cases hmk : env.mkdirOk = false
      · simp only [hmk, if_true] at h ⊢; exact failCleanup_temp ..
      · simp only [hmk, if_false] at h ⊢
        by_cases hskip : fs.get lp = some (expectedSize resp)
        · simp [hskip] at h
        · simp only [hskip, if_false] at h ⊢
          by_cases hop : env.openOk = false
          · simp only [hop, if_true] at h ⊢; exact failCleanup_temp ..
          · simp only [hop, if_false] at h ⊢
            by_cases hstr : env.streamOk = false
            · simp only [hstr, if_true] at h ⊢; exact failCleanup_temp ..
            · simp only [hstr, if_false] at h ⊢
              by_cases hsz : env.delivered ≠ expectedSize resp
              · rw [if_pos hsz] at h ⊢; exact failCleanup_temp ..
              · rw [if_neg hsz] at h; simp at h

/-- Witness for C2: a GET that raises, with a stale temporary file already on
disk, yields the failure outcome and the temporary file is removed. -/
def envC2 : DownloadEnv :=
  { getResult := Except.error (), mkdirOk := true, openOk := true,
    streamOk := true, delivered := 0 }

theorem download_file_failure_cleanup_witness :
    (download_file envC2 "no_job" "loc/f.bin"
        ⟨[(tempPath "no_job" "loc/f.bin", 7)]⟩).fs.get (tempPath "no_job" "loc/f.bin")
      = none :=
  download_file_failure_cleanup envC2 "no_job" "loc/f.bin"
    ⟨[(tempPath "no_job" "loc/f.bin", 7)]⟩ (by decide)

theorem mem_failCleanup_events {ev : FsEvent} {fs : FS} {tp : String}
    {evs : List FsEvent} {b : Nat} (h : ev ∈ (failCleanup fs tp evs b).events) :
    ev ∈ evs ∨ ev = FsEvent.removeFile tp := by
  unfold failCleanup at h
  split at h
  · simp at h
    tauto
  · exact Or.inl h

theorem failCleanup_events_head (fs : FS) (tp : String) (e : FsEvent)
    (rest : List FsEvent) (b : Nat) :
    (failCleanup fs tp (e :: rest) b).events.head? = some e := by
  unfold failCleanup
  split <;> simp

/-- Every filesystem event a `download_file` call can emit: the parent
`mkdir`, writes that target only the temporary path, the rename of the
temporary path onto the final path (possible only when the delivered byte
count equals the expected size), and the removal of the temporary path. -/
theorem download_file_events_sub (env : DownloadEnv) (jobId lp : String) (fs : FS) :
    ∀ ev ∈ (download_file env jobId lp fs).events,
      ev = FsEvent.mkdirParentsOf lp
      ∨ ev = FsEvent.openWrite (tempPath jobId lp)
      ∨ ev = FsEvent.writeChunk (tempPath jobId lp) env.delivered
      ∨ (∃ resp, env.getResult = Except.ok resp
          ∧ ev = FsEvent.rename (tempPath jobId lp) lp
          ∧ env.delivered = expectedSize resp)
      ∨ ev = FsEvent.removeFile (tempPath jobId lp) := by
  intro ev hev
  unfold download_file at hev
  cases hres : env.getResult with
  | error e =>
    simp only [hres] at hev
    rcases mem_failCleanup_events hev with h | h
    · simp at h
    · tauto
  | ok resp =>
    simp only [hres] at hev
    by_cases hst : httpError resp.status
    · simp only [hst, if_true] at hev
      rcases mem_failCleanup_events hev with h | h
      · simp at h
      · tauto
    · simp only [hst, if_false] at hev
      unfold downloadBody at hev
      by_cases hmk : env.mkdirOk = false
      · simp only [hmk, if_true] at hev
        rcases mem_failCleanup_events hev with h | h
        · simp at h
        · tauto
      · simp only [hmk, if_false] at hev
        by_cases hskip : fs.get lp = some (expectedSize resp)
        · rw [if_pos hskip] at hev
          simp at hev
          tauto
        · rw [if_neg hskip] at hev
          by_cases hop : env.openOk = false
          · simp only [hop, if_true] at hev
            rcases mem_failCleanup_events hev with h | h
            · simp at h; tauto
            · tauto
          · simp only [hop, if_false] at hev
            by_cases hstr : env.streamOk = false
            · simp only [hstr, if_true] at hev
              rcases mem_failCleanup_events hev with h | h
              · simp at h; tauto
              · tauto
            · simp only [hstr, if_false] at hev
              by_cases hsz : env.delivered ≠ expectedSize resp
              · rw [if_pos hsz] at hev
                rcases mem_failCleanup_events hev with h | h
                · simp at h; tauto
                · tauto
              · rw [if_neg hsz] at hev
                simp at hev
                rcases hev with h | h | h | h
                · tauto
                · tauto
                · tauto
                · exact Or.inr (Or.inr (Or.inr (Or.inl
                    ⟨resp, rfl, h, not_not.mp hsz⟩)))

theorem download_file_ok_size (env : DownloadEnv) (resp : GetResponse)
    (jobId lp : String) (fs : FS)
    (hresp : env.getResult = Except.ok resp)
    (hok : (download_file env jobId lp fs).ok = true) :
    (download_file env jobId lp fs).fs.get lp = some (expectedSize resp) := by
  unfold download_file downloadBody at *
  simp only [hresp] at hok ⊢
  by_cases hst : httpError resp.status
  · simp [hst, failCleanup_ok] at hok
  · by_cases hmk : env.mkdirOk = false
    · simp [hst, hmk, failCleanup_ok] at hok
    · by_cases hskip : fs.get lp = some (expectedSize resp)
      · simp [hst, hmk, hskip]
      · by_cases hop : env.openOk = false
        · simp [hst, hmk, hskip, hop, failCleanup_ok] at hok
        · by_cases hstr : env.streamOk = false
          · simp [hst, hmk, hskip, hop, hstr, failCleanup_ok] at hok
          · by_cases hsz : env.delivered ≠ expectedSize resp
            · simp [hst, hmk, hskip, hop, hstr, hsz, failCleanup_ok] at hok
            · simp [hst, hmk, hskip, hop, hstr, not_not.mp hsz, FS.get_set_self]

/-- C1: for every `download_file` call that returns the success outcome, the
file left at the final local path has size equal to the `Content-Length`
observed for that transfer (its absent-header default included); the body is
only ever written to the temporary path — every `openWrite`/`writeChunk`
event targets `tempPath` — and the final path is populated only by a rename
whose source is the temporary path, which can occur only when the delivered
byte count equals the expected size, i.e. after the size verification. -/
theorem download_file_integrity (env : DownloadEnv) (resp : GetResponse)
    (jobId lp : String) (fs : FS)
    (hresp : env.getResult = Except.ok resp) :
    ((download_file env jobId lp fs).ok = true →
      (download_file env jobId lp fs).fs.get lp = some (expectedSize resp))
    ∧ (∀ p, FsEvent.openWrite p ∈ (download_file env jobId lp fs).events →
        p = tempPath jobId lp)
    ∧ (∀ p n, FsEvent.writeChunk p n ∈ (download_file env jobId lp fs).events →
        p = tempPath jobId lp)
    ∧ (∀ a b, FsEvent.rename a b ∈ (download_file env jobId lp fs).events →
        a = tempPath jobId lp ∧ b = lp ∧ env.delivered = expectedSize resp) := by
  refine ⟨download_file_ok_size env resp jobId lp fs hresp, ?_, ?_, ?_⟩
  · intro p hp
    rcases download_file_events_sub env jobId lp fs _ hp with h | h | h | ⟨r, hr, h, hd⟩ | h
      <;> simp_all
  · intro p n hp
    rcases download_file_events_sub env jobId lp fs _ hp with h | h | h | ⟨r, hr, h, hd⟩ | h
      <;> simp_all
  · intro a b hab
    rcases download_file_events_sub env jobId lp fs _ hab with h | h | h | ⟨r, hr, h, hd⟩ | h
      <;> simp_all

/-- Witness for C1: a successful 3-byte transfer leaves a 3-byte file at the
final local path. -/
def envC1 : DownloadEnv :=
  { getResult := Except.ok { status := 200, contentLength := some 3 },
    mkdirOk := true, openOk := true, streamOk := true, delivered := 3 }

theorem download_file_integrity_witness :
    (download_file envC1 "no_job" "out/a.bin" ⟨[]⟩).fs.get "out/a.bin" = some 3 :=
  (download_file_integrity envC1 { status := 200, contentLength := some 3 }
    "no_job" "out/a.bin" ⟨[]⟩ rfl).1 (by decide)

theorem download_file_eq_skip (env : DownloadEnv) (resp : GetResponse)
    (jobId lp : String) (fs : FS)
    (hresp : env.getResult = Except.ok resp) (hst : httpError resp.status = false)
    (hmk : env.mkdirOk = true) (hskip : fs.get lp = some (expectedSize resp)) :
    download_file env jobId lp fs =
      { ok := true, fs := fs, events := [FsEvent.mkdirParentsOf lp], bytes := 0 } := by
  unfold download_file downloadBody
  simp [hresp, hst, hmk, hskip]

/-- C3: when a file already exists at the local path with exactly the expected
size, `download_file` returns success with zero body bytes transferred and an
unchanged filesystem; consequently, whenever a call succeeds, an immediate
second call against the resulting filesystem (the unchanged remote end
providing the same response) transfers zero body bytes and succeeds again. -/
theorem download_file_skip_fast_path (env : DownloadEnv) (resp : GetResponse)
    (jobId lp : String) (fs : FS)
    (hresp : env.getResult = Except.ok resp) (hst : httpError resp.status = false)
    (hmk : env.mkdirOk = true) :
    (fs.get lp = some (expectedSize resp) →
      (download_file env jobId lp fs).ok = true
      ∧ (download_file env jobId lp fs).bytes = 0
      ∧ (download_file env jobId lp fs).fs = fs)
    ∧ ((download_file env jobId lp fs).ok = true →
      (download_file env jobId lp (download_file env jobId lp fs).fs).bytes = 0
      ∧ (download_file env jobId lp (download_file env jobId lp fs).fs).ok = true) := by
  constructor
  · intro hskip
    rw [download_file_eq_skip env resp jobId lp fs hresp hst hmk hskip]
    exact ⟨rfl, rfl, rfl⟩
  · intro hok
    have hsize := download_file_ok_size env resp jobId lp fs hresp hok
    rw [download_file_eq_skip env resp jobId lp _ hresp hst hmk hsize]
    exact ⟨rfl, rfl⟩

/-- Witness for C3: with a complete 4-byte copy already on disk, the call
succeeds, reads no body bytes and leaves the filesystem unchanged. -/
def envC3 : DownloadEnv :=
  { getResult := Except.ok { status := 200, contentLength := some 4 },
    mkdirOk := true, openOk := true, streamOk := true, delivered := 4 }

def fsC3 : FS := ⟨[("d/f.txt", 4)]⟩

theorem download_file_skip_fast_path_witness :
    (download_file envC3 "no_job" "d/f.txt" fsC3).ok = true
    ∧ (download_file envC3 "no_job" "d/f.txt" fsC3).bytes = 0
    ∧ (download_file envC3 "no_job" "d/f.txt" fsC3).fs = fsC3 :=
  (download_file_skip_fast_path envC3 { status := 200, contentLength := some 4 }
    "no_job" "d/f.txt" fsC3 rfl (by decide) rfl).1 (by decide)

/-- C9: on every call whose GET succeeds (no transport error, no 4xx/5xx
status) and whose parent `mkdir` does not raise, the creation of the parent
directory chain is the first filesystem event — it precedes the skip check —
and on the skip path this `mkdir` is the only filesystem effect: no file
content is written or removed and the filesystem is unchanged. -/
theorem download_file_mkdir_before_skip (env : DownloadEnv) (resp : GetResponse)
    (jobId lp : String) (fs : FS)
    (hresp : env.getResult = Except.ok resp) (hst : httpError resp.status = false)
    (hmk : env.mkdirOk = true) :
    (download_file env jobId lp fs).events.head? = some (FsEvent.mkdirParentsOf lp)
    ∧ (fs.get lp = some (expectedSize resp) →
        (download_file env jobId lp fs).events = [FsEvent.mkdirParentsOf lp]
        ∧ (download_file env jobId lp fs).fs = fs
        ∧ (download_file env jobId lp fs).bytes = 0) := by
  constructor
  · unfold download_file downloadBody
    by_cases hskip : fs.get lp = some (expectedSize resp)
    · simp [hresp, hst, hmk, hskip]
    · by_cases hop : env.openOk = false
      · simp [hresp, hst, hmk, hskip, hop, failCleanup_events_head]
      · by_cases hstr : env.streamOk = false
        · simp [hresp, hst, hmk, hskip, hop, hstr, failCleanup_events_head]
        · by_cases hsz : env.delivered ≠ expectedSize resp
          · simp [hresp, hst, hmk, hskip, hop, hstr, hsz, failCleanup_events_head]
          · simp [hresp, hst, hmk, hskip, hop, hstr, hsz]
  · intro hskip
    rw [download_file_eq_skip env resp jobId lp fs hresp hst hmk hskip]
    exact ⟨rfl, rfl, rfl⟩

/-- Witness for C9: on the skip path the event trace is exactly the parent
`mkdir`. -/
def envC9 : DownloadEnv :=
  { getResult := Except.ok { status := 200, contentLength := some 2 },
    mkdirOk := true, openOk := true, streamOk := true, delivered := 2 }

def fsC9 : FS := ⟨[("p/q.txt", 2)]⟩

theorem download_file_mkdir_before_skip_witness :
    (download_file envC9 "no_job" "p/q.txt" fsC9).events
      = [FsEvent.mkdirParentsOf "p/q.txt"] :=
  ((download_file_mkdir_before_skip envC9 { status := 200, contentLength := some 2 }
    "no_job" "p/q.txt" fsC9 rfl (by decide) rfl).2 (by decide)).1

/-- C4, counterexample: with the `content-length` header absent the expected
size defaults to `0`; a download whose stream then delivers 5 body bytes and
completes normally is nevertheless failed by the size verification — the call
returns `False` and no file is left at the final path — whereas the claim
states that a download with unknown size is not failed for having a size
different from zero. -/
def envC4 : DownloadEnv :=
  { getResult := Except.ok { status := 200, contentLength := none },
    mkdirOk := true, openOk := true, streamOk := true, delivered := 5 }

theorem download_file_unknown_size_cex :
    envC4.getResult = Except.ok { status := 200, contentLength := none }
    ∧ (download_file envC4 "no_job" "loc/g.bin" ⟨[]⟩).ok = false
    ∧ (download_file envC4 "no_job" "loc/g.bin" ⟨[]⟩).fs.get "loc/g.bin" = none :=
  ⟨rfl, by decide, by decide⟩

/-- C4 (amended): when the `content-length` header is absent the expected size
is taken to be `0`; the skip check then triggers only for an existing empty
file, and the post-stream size verification compares the downloaded size
against `0`, so a download with unknown size whose body is nonempty is failed:
the call returns the failure outcome. -/
theorem download_file_unknown_size_fails (env : DownloadEnv) (resp : GetResponse)
    (jobId lp : String) (fs : FS)
    (hresp : env.getResult = Except.ok resp) (hcl : resp.contentLength = none)
    (hst : httpError resp.status = false) (hmk : env.mkdirOk = true)
    (hskip : fs.get lp ≠ some 0) (hop : env.openOk = true)
    (hstr : env.streamOk = true) (hd : env.delivered ≠ 0) :
    (download_file env jobId lp fs).ok = false := by
  unfold download_file downloadBody
  have hexp : expectedSize resp = 0 := by simp [expectedSize, hcl]
  simp [hresp, hst, hmk, hexp, hskip, hop, hstr, hd, failCleanup_ok]

/-- Witness for the amended C4. -/
theorem download_file_unknown_size_fails_witness :
    (download_file envC4 "no_job" "loc/h.bin" ⟨[]⟩).ok = false :=
  download_file_unknown_size_fails envC4 { status := 200, contentLength := none }
    "no_job" "loc/h.bin" ⟨[]⟩ rfl rfl (by decide) rfl (by decide) rfl rfl (by decide)

/-! ## `filter_string` (source lines 119-127)

`re.search(rf"/{re.escape(base_string)}.*", input_string)` searches for the
leftmost position at which the fully escaped — hence literal — needle
`"/" + base_string` occurs; the greedy `.*` then extends the match to the end
of the string or to the next newline character, whichever comes first,
because `.` does not match a newline.  `match.group(0)` is that matched text.
-/

/-- Leftmost-occurrence search: the suffix of the haystack starting at the
first position where `needle` occurs, or `none`. -/
def strFind (needle : List Char) : List Char → Option (List Char)
  | [] => if needle.isEmpty then some [] else none
  | c :: cs => if needle.isPrefixOf (c :: cs) then some (c :: cs) else strFind needle cs

/-- `filter_string(base_string, input_string)` (lines 119-127). -/
def filter_string (base input : String) : Option String :=
  match strFind ('/' :: base.toList) input.toList with
  | none => none
  | some suf =>
    some (String.mk (('/' :: base.toList) ++
      ((suf.drop ('/' :: base.toList).length).takeWhile (fun c => !(c == '\n')))))

theorem isPrefixOf_append_drop (a : List Char) (b : List Char)
    (h : a.isPrefixOf b = true) : a ++ b.drop a.length = b := by
  induction a generalizing b with
  | nil => simp
  | cons x xs ih =>
    cases b with
    | nil => simp [List.isPrefixOf] at h
    | cons y ys =>
      simp only [List.isPrefixOf, Bool.and_eq_true, beq_iff_eq] at h
      obtain ⟨h1, h2⟩ := h
      subst h1
      simpa using ih ys h2

theorem isPrefixOf_append_self (a t : List Char) : a.isPrefixOf (a ++ t) = true := by
  induction a with
  | nil => simp [List.isPrefixOf]
  | cons x xs ih => simp [List.isPrefixOf, ih]

theorem takeWhile_of_all {α : Type} (p : α → Bool) (l : List α)
    (h : ∀ a ∈ l, p a = true) : l.takeWhile p = l := by
  induction l with
  | nil => rfl
  | cons x xs ih =>
    rw [List.takeWhile_cons, h x (List.mem_cons_self x xs)]
    simpa using ih fun a ha => h a (List.mem_cons_of_mem x ha)

theorem wd_mem_of_drop {α : Type} {a : α} {l : List α} {i : Nat}
    (h : a ∈ l.drop i) : a ∈ l := by
  induction l generalizing i with
  | nil => simp at h
  | cons x xs ih =>
    cases i with
    | zero => simpa using h
    | succ k => exact List.mem_cons_of_mem x (ih (by simpa using h))

theorem strFind_some_spec (needle hay suf : List Char)
    (h : strFind needle hay = some suf) :
    needle.isPrefixOf suf = true
    ∧ ∃ i, suf = hay.drop i
        ∧ ∀ j, j < i → needle.isPrefixOf (hay.drop j) = false := by
  induction hay with
  | nil =>
    unfold strFind at h
    by_cases he : needle.isEmpty = true
    · rw [if_pos he] at h
      injection h with h'
      subst h'
      cases needle with
      | nil => exact ⟨rfl, 0, rfl, by omega⟩
      | cons x xs => simp [List.isEmpty] at he
    · rw [if_neg he] at h
      exact absurd h (by simp)
  | cons c cs ih =>
    unfold strFind at h
    by_cases hp : needle.isPrefixOf (c :: cs) = true
    · rw [if_pos hp] at h
      injection h with h'
      subst h'
      exact ⟨hp, 0, rfl, by omega⟩
    · rw [if_neg hp] at h
      obtain ⟨hpre, i, hsuf, hmin⟩ := ih h
      refine ⟨hpre, i + 1, by simpa using hsuf, ?_⟩
      intro j hj
      cases j with
      | zero =>
        simp only [List.drop_zero]
        simp only [Bool.not_eq_true] at hp
        exact hp
      | succ k => simpa using hmin k (by omega)

theorem strFind_none_spec (needle hay : List Char)
    (h : strFind needle hay = none) :
    ∀ i, needle.isPrefixOf (hay.drop i) = false := by
  induction hay with
  | nil =>
    unfold strFind at h
    by_cases he : needle.isEmpty = true
    · rw [if_pos he] at h; exact absurd h (by simp)
    · intro i
      cases needle with
      | nil => simp [List.isEmpty] at he
      | cons x xs => simp [List.isPrefixOf]
  | cons c cs ih =>
    unfold strFind at h
    by_cases hp : needle.isPrefixOf (c :: cs) = true
    · rw [if_pos hp] at h; exact absurd h (by simp)
    · rw [if_neg hp] at h
      intro i
      cases i with
      | zero =>
        simp only [List.drop_zero]
        simp only [Bool.not_eq_true] at hp
        exact hp
      | succ k => simpa using ih h k

/-- C6, counterexample: the claim says the returned suffix extends to the end
of `rawEntry`, but the match of `.*` stops at a newline: for base directory
`data` and raw entry `"/data/a\nb"` the code returns `"/data/a"`, not the
full suffix `"/data/a\nb"` that starts at the first occurrence of `"/data"`
(which is at index 0, so the claimed suffix is the whole entry). -/
theorem filter_string_newline_cex :
    filter_string "data" "/data/a\nb" = some "/data/a"
    ∧ ("/data/a" : String) ≠ "/data/a\nb" :=
  ⟨by decide, by decide⟩

/-- C6 (amended): `filter_string base input` returns the portion of `input`
that starts at the first occurrence of `"/" ++ base` — every character of
`base` matched literally, the match being a plain substring search — and
extends to the end of the string or to the first newline character after the
matched base, whichever comes first; in particular it is the suffix of
`input` from that occurrence to the end whenever `input` contains no newline.
When `"/" ++ base` occurs nowhere in `input`, it returns `none`. -/
theorem filter_string_correct (base input : String) :
    ((∀ i, ('/' :: base.toList).isPrefixOf (input.toList.drop i) = false) →
      filter_string base input = none)
    ∧ (∀ r, filter_string base input = some r →
        ∃ i, ('/' :: base.toList).isPrefixOf (input.toList.drop i) = true
          ∧ (∀ j, j < i → ('/' :: base.toList).isPrefixOf (input.toList.drop j) = false)
          ∧ r.data = ('/' :: base.toList)
              ++ (((input.toList.drop i).drop ('/' :: base.toList).length).takeWhile
                    (fun c => !(c == '\n')))
          ∧ ((∀ c ∈ input.toList, c ≠ '\n') → r.data = input.toList.drop i)) := by
  constructor
  · intro hnone
    unfold filter_string
    cases hf : strFind ('/' :: base.toList) input.toList with
    | none => rfl
    | some suf =>
      obtain ⟨hpre, i, hsuf, -⟩ := strFind_some_spec _ _ _ hf
      rw [hsuf] at hpre
      rw [hnone i] at hpre
      exact absurd hpre (by simp)
  · intro r hr
    unfold filter_string at hr
    cases hf : strFind ('/' :: base.toList) input.toList with
    | none => rw [hf] at hr; exact absurd hr (by simp)
    | some suf =>
      rw [hf] at hr
      injection hr with hr'
      obtain ⟨hpre, i, hsuf, hmin⟩ := strFind_some_spec _ _ _ hf
      subst hr'
      refine ⟨i, ?_, hmin, ?_, ?_⟩
      · rw [← hsuf]; exact hpre
      · rw [hsuf]
      · intro hnl
        have hall : ∀ c ∈ suf.drop ('/' :: base.toList).length,
            (fun c => !(c == '\n')) c = true := by
          intro c hc
          have hcin : c ∈ input.toList := by
            rw [hsuf] at hc
            exact wd_mem_of_drop (wd_mem_of_drop hc)
          simp [hnl c hcin]
        calc (String.mk (('/' :: base.toList) ++
              ((suf.drop ('/' :: base.toList).length).takeWhile
                (fun c => !(c == '\n'))))).data
            = ('/' :: base.toList) ++ suf.drop ('/' :: base.toList).length := by
              rw [takeWhile_of_all _ _ hall]
          _ = suf := isPrefixOf_append_drop _ _ hpre
          _ = input.toList.drop i := hsuf

/-- Witness for the amended C6, instantiated at base `"data"` and entry
`"/data/x"`: the first occurrence is at index 0, and since the entry has no
newline the result is the suffix from that index, i.e. the whole entry. -/
theorem filter_string_correct_witness :
    ∃ i, ('/' :: ("data" : String).toList).isPrefixOf
          ((("/data/x" : String).toList).drop i) = true
      ∧ (∀ j, j < i → ('/' :: ("data" : String).toList).isPrefixOf
          ((("/data/x" : String).toList).drop j) = false)
      ∧ ("/data/x" : String).data = ('/' :: ("data" : String).toList)
          ++ (((("/data/x" : String).toList.drop i).drop
                ('/' :: ("data" : String).toList).length).takeWhile
                  (fun c => !(c == '\n')))
      ∧ ((∀ c ∈ ("/data/x" : String).toList, c ≠ '\n') →
          ("/data/x" : String).data = ("/data/x" : String).toList.drop i) :=
  (filter_string_correct "data" "/data/x").2 "/data/x" (by decide)

/-- C8: `filter_string` anchors the base directory with no path-segment
boundary: whenever `"/" ++ base` occurs anywhere in the entry the result is
`some` — the entry is accepted as in scope — and an entry of the form
`"/" ++ base ++ ext`, where `ext` need not start with a separator (e.g. base
`data` and entry `/data2/f.txt`), is returned whole rather than rejected. -/
theorem filter_string_no_boundary (base ext input : String)
    (hocc : ∃ i, ('/' :: base.toList).isPrefixOf (input.toList.drop i) = true)
    (hext : ∀ c ∈ ext.toList, c ≠ '\n') :
    (filter_string base input).isSome = true
    ∧ filter_string base (String.mk (('/' :: base.toList) ++ ext.toList))
        = some (String.mk (('/' :: base.toList) ++ ext.toList)) := by
  constructor
  · unfold filter_string
    cases hf : strFind ('/' :: base.toList) input.toList with
    | none =>
      obtain ⟨i, hi⟩ := hocc
      rw [strFind_none_spec _ _ hf i] at hi
      exact absurd hi (by simp)
    | some suf => rfl
  · unfold filter_string
    have hdata : (String.mk (('/' :: base.toList) ++ ext.toList)).toList
        = '/' :: (base.toList ++ ext.toList) := rfl
    rw [hdata]
    have hpre : ('/' :: base.toList).isPrefixOf ('/' :: (base.toList ++ ext.toList))
        = true := by
      exact isPrefixOf_append_self ('/' :: base.toList) ext.toList
    have hfind : strFind ('/' :: base.toList) ('/' :: (base.toList ++ ext.toList))
        = some ('/' :: (base.toList ++ ext.toList)) := by
      rw [strFind]
      exact if_pos hpre
    rw [hfind]
    have hdrop : ('/' :: (base.toList ++ ext.toList)).drop ('/' :: base.toList).length
        = ext.toList := by
      exact List.drop_left ('/' :: base.toList) ext.toList
    show some (String.mk (('/' :: base.toList) ++
        ((('/' :: (base.toList ++ ext.toList)).drop
          ('/' :: base.toList).length).takeWhile (fun c => !(c == '\n')))))
      = some (String.mk (('/' :: base.toList) ++ ext.toList))
    rw [hdrop, takeWhile_of_all _ _ (fun c hc => by simp [hext c hc])]

/-- Witness for C8: base `data`, entry `/data2/f.txt` — a sibling directory
whose name merely begins with the base directory name is accepted whole. -/
theorem filter_string_no_boundary_witness :
    (filter_string "data" "/data2/f.txt").isSome = true
    ∧ filter_string "data" (String.mk (('/' :: ("data" : String).toList)
          ++ ("2/f.txt" : String).toList))
        = some (String.mk (('/' :: ("data" : String).toList)
          ++ ("2/f.txt" : String).toList)) :=
  filter_string_no_boundary "data" "2/f.txt" "/data2/f.txt"
    ⟨0, by decide⟩ (by decide)

/-! ## `list_directory` (source lines 97-117)

The PROPFIND either raises a `requests` exception (transport failure,
including retry exhaustion inside the session) or yields a response with a
status code and a body; the body is modelled by the `href` list the XML
parse on line 112 extracts from it.  `raise_for_status()` raises exactly on
4xx/5xx; the raised exception is caught on line 115, logged together with
the remote path, and re-raised. -/

structure PropfindResp where
  status : Nat
  hrefs : List String
deriving DecidableEq

structure ListEnv where
  reqResult : Except Unit PropfindResp

/-- What escapes `list_directory` when it fails: the logged-and-re-raised
transport or HTTP-status error, tagged with the remote path it reports. -/
inductive ListingErr where
  | transport (remotePath : String)
  | httpStatus (remotePath : String) (status : Nat)
deriving DecidableEq

/-- `list_directory(remote_folder)` (lines 97-117). -/
def list_directory (env : ListEnv) (remoteFolder : String) :
    Except ListingErr (List String) :=
  match env.reqResult with
  | Except.error _ => Except.error (ListingErr.transport remoteFolder)
  | Except.ok resp =>
    if httpError resp.status then
      Except.error (ListingErr.httpStatus remoteFolder resp.status)
    else if resp.status = 207 then Except.ok resp.hrefs
    else Except.ok []

/-- C5, counterexample: a PROPFIND response with status `200` — not `207` —
does not fail with a listing error: `raise_for_status()` passes any 2xx
status, the `== 207` branch is skipped, and the call returns the empty list
as a success. -/
def envC5 : ListEnv := ⟨Except.ok { status := 200, hrefs := ["/d/", "/d/x.txt"] }⟩

theorem list_directory_non207_cex :
    envC5.reqResult = Except.ok { status := 200, hrefs := ["/d/", "/d/x.txt"] }
    ∧ list_directory envC5 "/d" = Except.ok [] :=
  ⟨rfl, rfl⟩

/-- C5 (amended): a transport failure (after retry exhaustion inside the
session) or a 4xx/5xx status fails with an error naming the remote path;
status `207` returns the parsed `href` list; any other non-4xx/5xx status —
e.g. a plain `200` — returns the empty list as a success rather than an
error.  A parsed (possibly nonempty) entry list is returned only on `207`. -/
theorem list_directory_status_policy (env : ListEnv) (rf : String) :
    (env.reqResult = Except.error () →
      list_directory env rf = Except.error (ListingErr.transport rf))
    ∧ (∀ resp, env.reqResult = Except.ok resp →
        (httpError resp.status = true →
          list_directory env rf = Except.error (ListingErr.httpStatus rf resp.status))
        ∧ (resp.status = 207 → list_directory env rf = Except.ok resp.hrefs)
        ∧ (httpError resp.status = false → resp.status ≠ 207 →
            list_directory env rf = Except.ok [])) := by
  constructor
  · intro herr
    unfold list_directory
    rw [herr]
  · intro resp hresp
    refine ⟨?_, ?_, ?_⟩
    · intro hst
      unfold list_directory
      rw [hresp]
      simp [hst]
    · intro h207
      unfold list_directory
      rw [hresp]
      have hst : httpError 207 = false := by decide
      simp [h207, hst]
    · intro hst hne
      unfold list_directory
      rw [hresp]
      simp [hst, hne]

/-- Witness for the amended C5: a `207` Multi-Status response yields the
parsed `href` list. -/
def envC5w : ListEnv := ⟨Except.ok { status := 207, hrefs := ["/d/", "/d/y.txt"] }⟩

theorem list_directory_status_policy_witness :
    list_directory envC5w "/d" = Except.ok ["/d/", "/d/y.txt"] :=
  ((list_directory_status_policy envC5w "/d").2
    { status := 207, hrefs := ["/d/", "/d/y.txt"] } rfl).2.1 rfl

/-! ## `download_folder` (source lines 182-232)

One directory invocation.  The outcomes of the call's external dependencies
are supplied by a `FolderEnv`: whether the local `mkdir` on line 185
succeeds, the directory-listing outcome (line 186), the outcome of each
recursive sub-directory invocation (line 202; `true` means it returned
normally, `false` that it raised), and the boolean each `download_file` task
returns (line 209; by `download_file_failure_cleanup` that call never
raises, so a boolean is all a task yields).  Futures are joined and failures
collected in submission order; the Python `as_completed` order is
nondeterministic, so the theorems below only speak about ledger membership.
A structural exception mid-loop propagates (lines 230-232 re-raise), in
which case no ledger batch is written. -/

structure FolderEnv where
  mkdirOk : Bool
  listing : Except Unit (List String)
  subdirOk : String → Bool
  fileOk : String → String → Bool

/-- Result of one `download_folder` invocation: normal return or a raised
exception, plus the lines this invocation appends to the failure ledger
`failed_downloads_{job_id}.txt` (lines 223-226). -/
structure FolderResult where
  outcome : Except Unit Unit
  ledger : List String

/-- Final path component: `Path(s).name`. -/
def baseName (s : String) : String :=
  String.mk (((s.toList.reverse).takeWhile (fun c => !(c == '/'))).reverse)

/-- Local destination `str(Path(local_folder) / Path(item).name)` (line 208),
modelled as the plain join of the folder and the entry's final component. -/
def localDest (lf entry : String) : String := lf ++ "/" ++ baseName entry

/-- `item.endswith("/")` (line 201). -/
def isDirEntry (s : String) : Bool := s.toList.getLast? == some '/'

/-- The dispatch loop of lines 196-210: filtered-out entries are skipped,
directory entries recurse synchronously (a raising recursion aborts the
whole invocation), file entries are submitted; returns the submitted
(remote item, local path) pairs in submission order. -/
def processItems (env : FolderEnv) (lf bd : String) :
    List String → Except Unit (List (String × String))
  | [] => Except.ok []
  | it :: rest =>
    match filter_string bd it with
    | none => processItems env lf bd rest
    | some item =>
      if isDirEntry item then
        if env.subdirOk item then processItems env lf bd rest
        else Except.error ()
      else
        match processItems env lf bd rest with
        | Except.error e => Except.error e
        | Except.ok l => Except.ok ((item, localDest lf item) :: l)

/-- `download_folder(remote_folder, local_folder, base_dir)`
(lines 182-232). -/
def download_folder (env : FolderEnv) (lf bd : String) : FolderResult :=
  if env.mkdirOk = false then { outcome := Except.error (), ledger := [] }
  else
    match env.listing with
    | Except.error _ => { outcome := Except.error (), ledger := [] }
    | Except.ok items =>
      if items.isEmpty then { outcome := Except.ok (), ledger := [] }
      else
        match processItems env lf bd (items.drop 1) with
        | Except.error _ => { outcome := Except.error (), ledger := [] }
        | Except.ok submitted =>
          { outcome := Except.ok ()
            ledger := (submitted.filter (fun pr => !(env.fileOk pr.1 pr.2))).map
              (fun pr => pr.2) }

theorem processItems_error_iff (env : FolderEnv) (lf bd : String) (items : List String) :
    processItems env lf bd items = Except.error ()
    ↔ ∃ it ∈ items, ∃ f, filter_string bd it = some f
        ∧ isDirEntry f = true ∧ env.subdirOk f = false := by
  induction items with
  | nil => simp [processItems]
  | cons it rest ih =>
    unfold processItems
    split
    · next hfi =>
      rw [ih]
      constructor
      · rintro ⟨x, hx, hrest⟩
        exact ⟨x, List.mem_cons_of_mem it hx, hrest⟩
      · rintro ⟨x, hx, f, hf, hdirf, hsubf⟩
        rcases List.mem_cons.mp hx with rfl | hx'
        · rw [hfi] at hf; exact absurd hf (by simp)
        · exact ⟨x, hx', f, hf, hdirf, hsubf⟩
    · next item hfi =>
      by_cases hdir : isDirEntry item = true
      · by_cases hsub : env.subdirOk item = true
        · rw [if_pos hdir, if_pos hsub, ih]
          constructor
          · rintro ⟨x, hx, h⟩
            exact ⟨x, List.mem_cons_of_mem it hx, h⟩
          · rintro ⟨x, hx, f, hf, hdirf, hsubf⟩
            rcases List.mem_cons.mp hx with rfl | hx'
            · rw [hfi] at hf
              injection hf with hf'
              subst hf'
              rw [hsub] at hsubf
              exact absurd hsubf (by simp)
            · exact ⟨x, hx', f, hf, hdirf, hsubf⟩
        · rw [if_pos hdir, if_neg hsub]
          exact iff_of_true rfl
            ⟨it, List.mem_cons_self it rest, item, hfi, hdir, by simpa using hsub⟩
      · rw [if_neg hdir]
        cases hrec : processItems env lf bd rest with
        | error e =>
          cases e
          refine iff_of_true rfl ?_
          obtain ⟨x, hx, h⟩ := ih.mp hrec
          exact ⟨x, List.mem_cons_of_mem it hx, h⟩
        | ok l =>
          refine iff_of_false (by simp) ?_
          rintro ⟨x, hx, f, hf, hdirf, hsubf⟩
          rcases List.mem_cons.mp hx with rfl | hx'
          · rw [hfi] at hf
            injection hf with hf'
            subst hf'
            rw [hdirf] at hdir
            exact hdir rfl
          · have herr := ih.mpr ⟨x, hx', f, hf, hdirf, hsubf⟩
            rw [hrec] at herr
            exact absurd herr (by simp)

theorem processItems_ok_mem (env : FolderEnv) (lf bd : String) (items : List String)
    (sub : List (String × String)) (h : processItems env lf bd items = Except.ok sub) :
    ∀ pr, pr ∈ sub ↔ ∃ it ∈ items, ∃ f, filter_string bd it = some f
        ∧ isDirEntry f = false ∧ pr = (f, localDest lf f) := by
  induction items generalizing sub with
  | nil =>
    unfold processItems at h
    injection h with h'
    subst h'
    simp
  | cons it rest ih =>
    unfold processItems at h
    split at h
    · next hfi =>
      intro pr
      rw [ih sub h pr]
      constructor
      · rintro ⟨x, hx, hrest⟩
        exact ⟨x, List.mem_cons_of_mem it hx, hrest⟩
      · rintro ⟨x, hx, f, hf, hdirf, hpr⟩
        rcases List.mem_cons.mp hx with rfl | hx'
        · rw [hfi] at hf; exact absurd hf (by simp)
        · exact ⟨x, hx', f, hf, hdirf, hpr⟩
    · next item hfi =>
      by_cases hdir : isDirEntry item = true
      · rw [if_pos hdir] at h
        by_cases hsub : env.subdirOk item = true
        · rw [if_pos hsub] at h
          intro pr
          rw [ih sub h pr]
          constructor
          · rintro ⟨x, hx, hrest⟩
            exact ⟨x, List.mem_cons_of_mem it hx, hrest⟩
          · rintro ⟨x, hx, f, hf, hdirf, hpr⟩
            rcases List.mem_cons.mp hx with rfl | hx'
            · rw [hfi] at hf
              injection hf with hf'
              subst hf'
              rw [hdir] at hdirf
              exact absurd hdirf (by simp)
            · exact ⟨x, hx', f, hf, hdirf, hpr⟩
        · rw [if_neg hsub] at h
          exact absurd h (by simp)
      · rw [if_neg hdir] at h
        cases hrec : processItems env lf bd rest with
        | error e =>
          rw [hrec] at h
          exact absurd h (by simp)
        | ok l =>
          rw [hrec] at h
          injection h with h'
          subst h'
          intro pr
          constructor
          · intro hpr
            rcases List.mem_cons.mp hpr with rfl | hpr'
            · exact ⟨it, List.mem_cons_self it rest, item, hfi, by simpa using hdir, rfl⟩
            · obtain ⟨x, hx, hrest⟩ := (ih l hrec pr).mp hpr'
              exact ⟨x, List.mem_cons_of_mem it hx, hrest⟩
          · rintro ⟨x, hx, f, hf, hdirf, hpr2⟩
            rcases List.mem_cons.mp hx with rfl | hx'
            · rw [hfi] at hf
              injection hf with hf'
              subst hf'
              subst hpr2
              exact List.mem_cons_self _ _
            · exact List.mem_cons_of_mem _ ((ih l hrec pr).mpr ⟨x, hx', f, hf, hdirf, hpr2⟩)

theorem processItems_fileOk_indep (env : FolderEnv) (fOk : String → String → Bool)
    (lf bd : String) (items : List String) :
    processItems { env with fileOk := fOk } lf bd items = processItems env lf bd items := by
  induction items with
  | nil => rfl
  | cons it rest ih =>
    unfold processItems
    simp only [ih]

theorem processItems_fileOk_set (mk : Bool) (li : Except Unit (List String))
    (sd : String → Bool) (fk fOk : String → String → Bool) (lf bd : String)
    (items : List String) :
    processItems ⟨mk, li, sd, fOk⟩ lf bd items = processItems ⟨mk, li, sd, fk⟩ lf bd items :=
  processItems_fileOk_indep ⟨mk, li, sd, fk⟩ fOk lf bd items

/-- C7: for one `download_folder` invocation, a failed local `mkdir` or a
raising directory listing aborts the invocation with an exception; the
invocation's raise/return outcome never depends on the booleans the
per-file download tasks return; and, given a successful `mkdir` and
listing, the invocation raises exactly when some filtered directory entry's
synchronous recursive invocation raises — per-file failures never do — while
on a normal return the failure ledger receives exactly the local paths of
the submitted file entries whose download returned `False`, one per line. -/
theorem download_folder_error_policy (env : FolderEnv) (lf bd : String) :
    (env.mkdirOk = false → (download_folder env lf bd).outcome = Except.error ())
    ∧ (env.mkdirOk = true → env.listing = Except.error () →
        (download_folder env lf bd).outcome = Except.error ())
    ∧ (∀ fOk, (download_folder { env with fileOk := fOk } lf bd).outcome
        = (download_folder env lf bd).outcome)
    ∧ (∀ items, env.listing = Except.ok items → env.mkdirOk = true →
        (((download_folder env lf bd).outcome = Except.error ())
          ↔ ∃ it ∈ items.drop 1, ∃ f, filter_string bd it = some f
              ∧ isDirEntry f = true ∧ env.subdirOk f = false)
        ∧ ((download_folder env lf bd).outcome = Except.ok () →
            ∀ p, p ∈ (download_folder env lf bd).ledger
              ↔ ∃ it ∈ items.drop 1, ∃ f, filter_string bd it = some f
                  ∧ isDirEntry f = false ∧ p = localDest lf f
                  ∧ env.fileOk f p = false)) := by
  refine ⟨?_, ?_, ?_, ?_⟩
  · intro hmk
    unfold download_folder
    rw [if_pos hmk]
  · intro hmk hl
    unfold download_folder
    rw [if_neg (by simp [hmk]), hl]
  · intro fOk
    obtain ⟨mk, li, sd, fk⟩ := env
    unfold download_folder
    dsimp only
    simp only [processItems_fileOk_set mk li sd fk fOk lf bd]
    by_cases hmk : mk = false
    · simp only [if_pos hmk]
    · simp only [if_neg hmk]
      cases li with
      | error e => rfl
      | ok items =>
        dsimp only
        by_cases hemp : items.isEmpty = true
        · simp only [if_pos hemp]
        · simp only [if_neg hemp]
          cases hp : processItems ⟨mk, Except.ok items, sd, fk⟩ lf bd (items.drop 1) with
          | error e => rfl
          | ok sub => rfl
  · intro items hl hmk
    have hdl : download_folder env lf bd =
        (if items.isEmpty = true then { outcome := Except.ok (), ledger := [] }
         else match processItems env lf bd (items.drop 1) with
           | Except.error _ => { outcome := Except.error (), ledger := [] }
           | Except.ok submitted =>
             { outcome := Except.ok ()
               ledger := (submitted.filter (fun pr => !(env.fileOk pr.1 pr.2))).map
                 (fun pr => pr.2) }) := by
      unfold download_folder
      rw [if_neg (by simp [hmk]), hl]
    rw [hdl]
    by_cases hemp : items.isEmpty = true
    · rw [if_pos hemp]
      cases items with
      | nil =>
        constructor
        · exact iff_of_false (by simp) (by simp)
        · intro _ p
          simp
      | cons a rest => simp at hemp
    · rw [if_neg hemp]
      cases hp : processItems env lf bd (items.drop 1) with
      | error e =>
        cases e
        constructor
        · exact iff_of_true rfl ((processItems_error_iff env lf bd (items.drop 1)).mp hp)
        · intro habs
          exact absurd habs (by simp)
      | ok sub =>
        constructor
        · refine iff_of_false (by simp) ?_
          intro hex
          have herr := (processItems_error_iff env lf bd (items.drop 1)).mpr hex
          rw [hp] at herr
          exact absurd herr (by simp)
        · intro _ p
          show p ∈ ((sub.filter (fun pr => !(env.fileOk pr.1 pr.2))).map
            (fun pr => pr.2)) ↔ _
          rw [List.mem_map]
          constructor
          · rintro ⟨pr, hprf, hpr2⟩
            rw [List.mem_filter] at hprf
            obtain ⟨hprs, hprb⟩ := hprf
            obtain ⟨x, hx, f, hf, hdirf, hpreq⟩ :=
              (processItems_ok_mem env lf bd _ sub hp pr).mp hprs
            subst hpreq
            refine ⟨x, hx, f, hf, hdirf, hpr2.symm, ?_⟩
            rw [← hpr2]
            simpa using hprb
          · rintro ⟨x, hx, f, hf, hdirf, hpeq, hfk⟩
            refine ⟨(f, localDest lf f), ?_, ?_⟩
            · rw [List.mem_filter]
              refine ⟨(processItems_ok_mem env lf bd _ sub hp _).mpr
                ⟨x, hx, f, hf, hdirf, rfl⟩, ?_⟩
              subst hpeq
              simpa using hfk
            · exact hpeq.symm

/-- Witness for C7: one sub-directory, one succeeding file and one failing
file; the invocation returns normally and the ledger holds exactly the
failing file's local path. -/
def envC7 : FolderEnv :=
  { mkdirOk := true,
    listing := Except.ok ["/data/", "/data/a.txt", "/data/b.txt"],
    subdirOk := fun _ => true,
    fileOk := fun r _ => r == "/data/a.txt" }

theorem download_folder_error_policy_witness :
    "loc/b.txt" ∈ (download_folder envC7 "loc" "data").ledger :=
  (((download_folder_error_policy envC7 "loc" "data").2.2.2
      ["/data/", "/data/a.txt", "/data/b.txt"] rfl rfl).2 (by rfl) "loc/b.txt").mpr
    ⟨"/data/b.txt", by decide, "/data/b.txt", by decide, by decide, by decide, by decide⟩

/-! ## Credential validation in `WebDAVDownloader.__init__` (lines 36-41)

`self.base_url = url or os.environ.get("WEBDAV_URL")` and the analogous two
lines resolve each credential: a falsy direct parameter (Python `None` or the
empty string) falls back to the environment variable, whose value may itself
be absent (`None`) or empty.  `if not all([...])` then raises `ValueError`
exactly when some resolved value is falsy.  `Option String` models an
optional string where `none` is Python `None`. -/

/-- Python truthiness of an optional string: `None` and `""` are falsy. -/
def truthyStr : Option String → Bool
  | none => false
  | some s => !(s == "")

/-- `param or fallback` for optional strings. -/
def orElseFalsy (param fallback : Option String) : Option String :=
  if truthyStr param then param else fallback

/-- The relevant environment variables. -/
structure CredEnv where
  webdavUrl : Option String
  webdavUsername : Option String
  webdavPassword : Option String

/-- An optional string that Python treats as absent. -/
def falsyOpt (o : Option String) : Prop := o = none ∨ o = some ""

/-- Lines 36-41 of `__init__`: resolve the three credentials and raise
`ValueError` (`Except.error`) when any resolved value is falsy, else return
the resolved triple. -/
def initCredentials (env : CredEnv) (url username password : Option String) :
    Except Unit (String × String × String) :=
  let bu := orElseFalsy url env.webdavUrl
  let un := orElseFalsy username env.webdavUsername
  let pw := orElseFalsy password env.webdavPassword
  if truthyStr bu && truthyStr un && truthyStr pw then
    Except.ok (bu.getD "", un.getD "", pw.getD "")
  else Except.error ()

theorem truthyStr_false_iff (o : Option String) :
    truthyStr o = false ↔ falsyOpt o := by
  cases o with
  | none => simp [truthyStr, falsyOpt]
  | some s =>
    simp only [truthyStr, falsyOpt, Bool.not_eq_false', beq_iff_eq]
    constructor
    · intro h; exact Or.inr (by rw [h])
    · rintro (h | h)
      · exact absurd h (by simp)
      · exact Option.some.inj h

/-- C10: construction raises `ValueError` exactly when some credential —
after the falsy direct parameter falls back to its environment variable —
resolves to a falsy value (absent or the empty string); in particular an
empty string passed as the username with no environment fallback is a
construction-time fatal error even when the other credentials are present. -/
theorem initCredentials_valueerror_iff (env : CredEnv)
    (url username password : Option String) :
    ((∃ e, initCredentials env url username password = Except.error e)
      ↔ (falsyOpt (orElseFalsy url env.webdavUrl)
          ∨ falsyOpt (orElseFalsy username env.webdavUsername)
          ∨ falsyOpt (orElseFalsy password env.webdavPassword)))
    ∧ initCredentials ⟨none, none, none⟩ (some "http://h") (some "") (some "pw")
        = Except.error () := by
  constructor
  · unfold initCredentials
    by_cases hb : truthyStr (orElseFalsy url env.webdavUrl) = true
    · by_cases hn : truthyStr (orElseFalsy username env.webdavUsername) = true
      · by_cases hp : truthyStr (orElseFalsy password env.webdavPassword) = true
        · simp only [hb, hn, hp]
          constructor
          · rintro ⟨e, he⟩; simp at he
          · rintro (h | h | h)
            · rw [← truthyStr_false_iff] at h; simp_all
            · rw [← truthyStr_false_iff] at h; simp_all
            · rw [← truthyStr_false_iff] at h; simp_all
        · simp only [Bool.not_eq_true] at hp
          simp only [hp]
          exact iff_of_true ⟨(), by simp⟩
            (Or.inr (Or.inr ((truthyStr_false_iff _).mp hp)))
      · simp only [Bool.not_eq_true] at hn
        simp only [hn]
        exact iff_of_true ⟨(), by simp⟩
          (Or.inr (Or.inl ((truthyStr_false_iff _).mp hn)))
    · simp only [Bool.not_eq_true] at hb
      simp only [hb]
      exact iff_of_true ⟨(), by simp⟩ (Or.inl ((truthyStr_false_iff _).mp hb))
  · rfl
